import Mathlib

/-!
Verification development for the deepwiki-go RAG engine.

The Go sources are shallowly embedded: each Go function used by the
properties below is translated into an executable Lean definition over
explicit state.  Floating point scores are modelled by `ℚ` (all score
arithmetic in the source is on small literals, where IEEE doubles behave
like exact rationals); Go maps are modelled by association lists in
insertion order; the `rand.Float32` stream of the placeholder embedding is
modelled by an explicit stream `Nat → ℚ` with a cursor.
-/

namespace DeepWiki

/-! ## Go string helpers

`strings.Fields`, `strings.Contains`, `strings.Trim`, `strings.ToLower`
as used by `internal/rag/memory.go` and `internal/rag/google_rag.go`. -/

/-- Model of Go `strings.ToLower` (character-wise lowering). -/
def toLowerStr (s : String) : String := String.mk (s.toList.map Char.toLower)

/-- Helper for `fields`: walk the characters, accumulating the current
word (in reverse) and emitting it at each whitespace run or at the end. -/
def fieldsAux : List Char → List Char → List String
  | [], acc => if acc.isEmpty then [] else [String.mk acc.reverse]
  | c :: cs, acc =>
    if c.isWhitespace then
      if acc.isEmpty then fieldsAux cs []
      else String.mk acc.reverse :: fieldsAux cs []
    else fieldsAux cs (c :: acc)

/-- Model of Go `strings.Fields`: split around runs of whitespace,
keeping only the non-empty words. -/
def fields (s : String) : List String := fieldsAux s.toList []

/-- Model of Go `strings.Contains s sub`: `sub` occurs as a substring of
`s` (true for the empty substring). -/
def goContains (s sub : String) : Bool :=
  s.toList.tails.any (fun t => sub.toList.isPrefixOf t)

/-- Model of Go `len(w)` on a string: its UTF-8 byte length. -/
def byteLen (w : String) : Nat := w.utf8ByteSize

/-! ## Data model (`internal/models/models.go`) -/

/-- The metadata map written by the indexer
(`internal/data/database.go`, `readAllDocuments`).  The Go code stores a
`map[string]interface{}` but only ever writes these six keys, so the map
is embedded as a record. -/
structure MetaData where
  filePath : String
  type : String
  isCode : Bool
  isImplementation : Bool
  title : String
  tokenCount : Nat
deriving DecidableEq

/-- `models.Document` (embedding vector omitted: the code paths below
never read it; fields that a construction site leaves unset carry Go's
zero value `""` / `{}`). -/
structure Document where
  id : String
  title : String
  text : String
  metaData : MetaData
  importance : String
deriving DecidableEq

/-- The zero value of `MetaData`. -/
def MetaData.zero : MetaData := ⟨"", "", false, false, "", 0⟩

/-- The zero value of `models.Document`. -/
def Document.zero : Document := ⟨"", "", "", MetaData.zero, ""⟩

/-- `models.DialogTurn`. -/
structure DialogTurn where
  id : String
  userQuery : String
  assistantResponse : String
deriving DecidableEq

/-! ## Conversation memory (`internal/rag/memory.go`) -/

/-- The `matches` counter of `similarityScore` in `internal/rag/memory.go`:
each word of `a` (counted with multiplicity, because the Go loop ranges
over `aWords` and breaks out of the inner loop only) that has byte length
greater than 1 and also occurs among the words of `b` counts one match. -/
def simMatches (a b : String) : Nat :=
  ((fields a).filter (fun w => byteLen w > 1 && (fields b).contains w)).length

/-- `similarityScore` from `internal/rag/memory.go`: the score is
`matches / (len aWords + len bWords - matches)`, and `0` if either side
has no words. -/
def similarityScore (a b : String) : ℚ :=
  if (fields a).length = 0 ∨ (fields b).length = 0 then 0
  else (simMatches a b : ℚ) /
    (((fields a).length : ℚ) + ((fields b).length : ℚ) - (simMatches a b : ℚ))

/-- `Memory.GetRelevantContext` from `internal/rag/memory.go`: looks at
the last three turns, keeps those whose stored user query has similarity
above `0.3` with the query, falls back to the whole window, and renders
the kept turns into a context string. -/
def getRelevantContext (turns : List DialogTurn) (query : String) : String :=
  if turns.length = 0 then ""
  else
    let maxTurns := 3
    let startIdx := if turns.length > maxTurns then turns.length - maxTurns else 0
    let window := turns.drop startIdx
    let queryLower := toLowerStr query
    let relevantTurns :=
      window.filter (fun t => similarityScore queryLower (toLowerStr t.userQuery) > 3/10)
    let relevantTurns := if relevantTurns.length = 0 then window else relevantTurns
    String.join (relevantTurns.map
      (fun t => "问题: " ++ t.userQuery ++ "\n回答: " ++ t.assistantResponse ++ "\n\n"))

/-! ## Context re-ranking (`internal/rag/google_rag.go`) -/

/-- The cutset of `strings.Trim(word, ",.!?;:\x22\x27()[]\x7b\x7d")` in
`extractKeywords`.  The quote and brace characters are written via
`Char.ofNat` (34 `"`, 39 `'`, 123 `\x7b`, 125 `\x7d`). -/
def trimCutset : List Char :=
  [',', '.', '!', '?', ';', ':', Char.ofNat 34, Char.ofNat 39,
   '(', ')', '[', ']', Char.ofNat 123, Char.ofNat 125]

/-- Model of Go `strings.Trim s cutset`: strip leading and trailing
characters belonging to the cutset. -/
def goTrim (s : String) (cutset : List Char) : String :=
  String.mk (((s.toList.dropWhile (fun c => cutset.contains c)).reverse.dropWhile
    (fun c => cutset.contains c)).reverse)

/-- The stop-word set of `extractKeywords` in
`internal/rag/google_rag.go` (Chinese particles). -/
def stopWords : List String :=
  ["的", "了", "和", "是", "在", "这", "有", "我", "们", "为"]

/-- `extractKeywords` from `internal/rag/google_rag.go`: split the text
into whitespace-separated words, trim punctuation, lowercase, and keep
the non-empty non-stop-words of byte length greater than 1. -/
def extractKeywords (text : String) : List String :=
  ((fields text).map (fun w => toLowerStr (goTrim w trimCutset))).filter
    (fun w => w ≠ "" && !stopWords.contains w && byteLen w > 1)

/-- `calculateContextScore` from `internal/rag/google_rag.go`: the Go
loop adds `1.0` per keyword contained (case-insensitively) in the
document text and `2.0` per keyword contained in the title, then
multiplies by `1.5` when the importance is exactly `"high"` (there is no
branch for any other importance value). -/
def calculateContextScore (doc : Document) (contextKeywords : List String) : ℚ :=
  let score := contextKeywords.foldl
    (fun score keyword =>
      let score :=
        if goContains (toLowerStr doc.text) (toLowerStr keyword) then score + 1 else score
      if goContains (toLowerStr doc.title) (toLowerStr keyword) then score + 2 else score)
    0
  if doc.importance = "high" then score * 1.5 else score

/-- The context score as §4.3 of the specification words it (refinement
target, translated from the SPEC, not from the source): `+1.0` per
keyword occurring in the text, `+2.0` per keyword occurring in the
title, multiplied by the importance factor of §4.2 — `1.5` for "high",
`1.2` for "medium", `1.0` otherwise. -/
def specContextScore (doc : Document) (contextKeywords : List String) : ℚ :=
  ((contextKeywords.map (fun keyword =>
      (if goContains (toLowerStr doc.text) (toLowerStr keyword) then (1 : ℚ) else 0) +
      (if goContains (toLowerStr doc.title) (toLowerStr keyword) then (2 : ℚ) else 0))).sum) *
    (if doc.importance = "high" then 1.5
     else if doc.importance = "medium" then 1.2 else 1)

/-- `reRankDocumentsWithContext` from `internal/rag/google_rag.go`:
score every candidate against the keywords of the context and sort by
descending score.  The Go code uses `sort.Slice` with the comparison
`score i > score j`, an unspecified (unstable) comparison sort; it is
modelled by `List.mergeSort` with the matching total order `score j ≤
score i`, which realises one admissible execution of that sort. -/
def reRankDocumentsWithContext (docs : List Document) (context : String) : List Document :=
  let contextKeywords := extractKeywords context
  let scoredDocs := docs.map (fun doc => (doc, calculateContextScore doc contextKeywords))
  let sorted := scoredDocs.mergeSort (fun x y => decide (y.2 ≤ x.2))
  sorted.map (fun sd => sd.1)

/-! ## Provider registry (`internal/rag/rag.go`)

A `RAGProvider` is represented by its name together with the outcomes of
its `Initialize()` and `Close()` calls (the only provider behaviour the
registry observes).  The Go `map[string]RAGProvider` is modelled as an
association list in insertion order; `Register` keeps keys unique, and
Go's arbitrary map-iteration order in `Unregister` is realised by list
order. -/

/-- A provider as seen by the registry: its unique name and whether its
`Initialize()` and `Close()` calls succeed. -/
structure Provider where
  name : String
  initOk : Bool
  closeOk : Bool
deriving DecidableEq

/-- `ProviderRegistry`: the name-to-provider map plus the single
`active` name (Go zero value `""` means "no active provider"). -/
structure Registry where
  providers : List (String × Provider)
  active : String
deriving DecidableEq

/-- `NewProviderRegistry`: empty map, no active provider. -/
def Registry.empty : Registry := ⟨[], ""⟩

/-- The errors the registry operations return. -/
inductive RegError where
  | alreadyRegistered (name : String)
  | initializeFailed (name : String)
  | notRegistered (name : String)
  | noActiveProvider
  | activeMissing (name : String)
  | closeFailed (name : String)
deriving DecidableEq

/-- Lookup in the provider map. -/
def Registry.lookup (r : Registry) (name : String) : Option Provider :=
  (r.providers.find? (fun q => q.1 = name)).map (fun q => q.2)

/-- Whether a name is a key of the provider map. -/
def Registry.hasName (r : Registry) (name : String) : Bool :=
  r.providers.any (fun q => q.1 = name)

/-- `ProviderRegistry.Register`: fail on a duplicate name, fail if
`Initialize()` fails, otherwise store the provider and make it active if
no provider was active yet.  Returns the state after the call and the
error, if any; both error paths leave the state untouched. -/
def Register (r : Registry) (p : Provider) : Registry × Option RegError :=
  if r.hasName p.name then (r, some (RegError.alreadyRegistered p.name))
  else if !p.initOk then (r, some (RegError.initializeFailed p.name))
  else
    (⟨r.providers ++ [(p.name, p)], if r.active = "" then p.name else r.active⟩, none)

/-- `ProviderRegistry.SetActive`: fail if the name is unknown, otherwise
set the active name. -/
def SetActive (r : Registry) (name : String) : Registry × Option RegError :=
  if r.hasName name then (⟨r.providers, name⟩, none)
  else (r, some (RegError.notRegistered name))

/-- `ProviderRegistry.GetActive`: fail if no active name is set or the
active name is missing from the map; never changes the state. -/
def GetActive (r : Registry) : Option Provider × Option RegError :=
  if r.active = "" then (none, some RegError.noActiveProvider)
  else
    match r.lookup r.active with
    | none => (none, some (RegError.activeMissing r.active))
    | some p => (some p, none)

/-- The replacement active name chosen by `Unregister` when the removed
provider was active: the first remaining provider (Go iterates the map
in arbitrary order; the model uses list order), or `""` if none remains. -/
def firstOtherName (providers : List (String × Provider)) (name : String) : String :=
  match (providers.filter (fun q => q.1 ≠ name)).head? with
  | some q => q.1
  | none => ""

/-- `ProviderRegistry.Unregister`: fail if the name is unknown; if the
name was active, move `active` to another provider (or clear it) BEFORE
calling `Close()`; if `Close()` fails, return its error without deleting
the provider — the already-moved `active` keeps its new value; otherwise
delete the provider. -/
def Unregister (r : Registry) (name : String) : Registry × Option RegError :=
  match r.lookup name with
  | none => (r, some (RegError.notRegistered name))
  | some p =>
    let newActive := if r.active = name then firstOtherName r.providers name else r.active
    if !p.closeOk then
      (⟨r.providers, newActive⟩, some (RegError.closeFailed name))
    else
      (⟨r.providers.filter (fun q => q.1 ≠ name), newActive⟩, none)

/-- The registry states reachable from `NewProviderRegistry()` by any
sequence of `Register`, `SetActive` and `Unregister` calls
(`GetActive` never changes the state, so it contributes no step). -/
inductive Reachable : Registry → Prop
  | empty : Reachable Registry.empty
  | register {r : Registry} (p : Provider) : Reachable r → Reachable (Register r p).1
  | setActive {r : Registry} (name : String) : Reachable r → Reachable (SetActive r name).1
  | unregister {r : Registry} (name : String) : Reachable r → Reachable (Unregister r name).1

/-! ## Document database (`internal/data/database.go`)

The Milvus collection is modelled as the list of inserted rows, the
HNSW search as an exact nearest-neighbour scan under the same L2 metric,
and the `rand.Float32()` source of the placeholder `getEmbedding` as an
explicit stream `Nat → ℚ` with a cursor that each draw advances.
`math.Sqrt` (used only to normalise the random vector) is an abstract
parameter `sqrtFn : ℚ → ℚ`; theorems that depend on it assume only
facts true of the real square root. -/

/-- `embeddingDimension` from `internal/data/database.go`. -/
def embeddingDimension : Nat := 768

/-- The state of the `math/rand` generator: the stream of future
`rand.Float32()` values and the cursor into it. -/
structure Rng where
  stream : Nat → ℚ
  pos : Nat

/-- `getEmbedding` from `internal/data/database.go`: draw
`embeddingDimension` fresh values from the random stream (the `text`
argument is ignored by the placeholder), then normalise by the Euclidean
norm when it is positive. -/
def getEmbedding (sqrtFn : ℚ → ℚ) (text : String) (g : Rng) : List ℚ × Rng :=
  let vec := (List.range embeddingDimension).map (fun i => g.stream (g.pos + i))
  let norm := sqrtFn ((vec.map (fun v => v * v)).sum)
  (if norm > 0 then vec.map (fun v => v / norm) else vec,
   ⟨g.stream, g.pos + embeddingDimension⟩)

/-- One row of the Milvus collection, as inserted by
`addDocumentInternal`: primary key, file path, embedding, raw text and
the metadata payload. -/
structure StoredEntry where
  docId : Int
  filePath : String
  embedding : List ℚ
  rawText : String
  metaData : MetaData
deriving DecidableEq

/-- Squared L2 distance, the metric (`entity.L2`) of the collection's
HNSW index. -/
def l2distSq (a b : List ℚ) : ℚ :=
  (List.zipWith (fun x y => (x - y) * (x - y)) a b).sum

/-- `SearchDocuments` from `internal/data/database.go`: embed the query
(one fresh random draw), rank the stored rows by L2 distance to the
query vector, keep the best `topK`, and decode each hit's payload into a
`models.Document` carrying the raw text and metadata (all other fields
keep their zero values). -/
def searchDocuments (sqrtFn : ℚ → ℚ) (store : List StoredEntry) (query : String)
    (topK : Nat) (g : Rng) : List Document × Rng :=
  let qvec := (getEmbedding sqrtFn query g).1
  let g1 := (getEmbedding sqrtFn query g).2
  let sorted := store.mergeSort
    (fun x y => decide (l2distSq qvec x.embedding ≤ l2distSq qvec y.embedding))
  (((sorted.take topK).map
      (fun e => ⟨"", "", e.rawText, e.metaData, ""⟩ : StoredEntry → Document)), g1)

/-! ## Indexing (`readAllDocuments` / `PrepareDatabase`) -/

/-- A file of the materialised repository: its path relative to the root
and its content (`none` models a file `os.ReadFile` fails on). -/
structure RepoFile where
  path : String
  content : Option String
deriving DecidableEq

/-- The code extensions of `readAllDocuments`. -/
def codeExtensions : List String :=
  [".py", ".js", ".ts", ".java", ".cpp", ".c", ".go", ".rs",
   ".jsx", ".tsx", ".html", ".css", ".php", ".swift", ".cs"]

/-- The documentation extensions of `readAllDocuments`. -/
def docExtensions : List String :=
  [".md", ".txt", ".rst", ".json", ".yaml", ".yml"]

/-- The excluded directories of `readAllDocuments`. -/
def excludedDirs : List String := [".venv", "node_modules", ".git", "__pycache__"]

/-- The excluded files of `readAllDocuments`. -/
def excludedFiles : List String := ["package-lock.json", "yarn.lock"]

/-- `utils.FindFiles`: the files whose path ends with the extension. -/
def findFiles (files : List RepoFile) (ext : String) : List RepoFile :=
  files.filter (fun f => ext.toList.isSuffixOf f.path.toList)

/-- The exclusion test of `readAllDocuments`: the path contains an
excluded directory name, or ends with an excluded file name. -/
def isExcluded (filePath : String) : Bool :=
  excludedDirs.any (fun d => goContains filePath d) ||
  excludedFiles.any (fun f => f.toList.isSuffixOf filePath.toList)

/-- Helper for `baseName`: keep the characters after the last `/`. -/
def baseNameAux : List Char → List Char → List Char
  | [], acc => acc.reverse
  | c :: cs, acc => if c = '/' then baseNameAux cs [] else baseNameAux cs (c :: acc)

/-- `filepath.Base` on a relative file path: the last path component
(the trailing-separator and empty-path special cases of `filepath.Base`
do not arise for the walked file paths). -/
def baseName (p : String) : String := String.mk (baseNameAux p.toList [])

/-- The `is_implementation` heuristic of `readAllDocuments`: the base
name starts with neither `test_` nor `app_`, and the lowercased path
does not contain `test`. -/
def isImplementation (relativePath : String) : Bool :=
  !("test_".toList.isPrefixOf (baseName relativePath).toList) &&
  !("app_".toList.isPrefixOf (baseName relativePath).toList) &&
  !(goContains (toLowerStr relativePath) "test")

/-- `strings.TrimPrefix ext "."`. -/
def extType (ext : String) : String :=
  if ".".toList.isPrefixOf ext.toList then String.mk (ext.toList.drop 1) else ext

/-- Processing of one found file inside a loop of `readAllDocuments`:
skip excluded paths (without reading), read the content (one read, also
counted when the read fails or the file is later rejected), reject files
whose token count exceeds 8192, and otherwise build the `Document`.
Returns the produced document, if any, and the number of file reads
performed.  `tokenCount` abstracts `utils.CountTokens` (the external
tiktoken tokenizer); `filepath.Rel` is modelled by the paths already
being relative to the walked root. -/
def processFile (tokenCount : String → Nat) (isCode : Bool) (ext : String)
    (f : RepoFile) : Option Document × Nat :=
  if isExcluded f.path then (none, 0)
  else
    match f.content with
    | none => (none, 1)
    | some content =>
      let tc := tokenCount content
      if tc > 8192 then (none, 1)
      else if isCode then
        (some ⟨"", "", content,
          ⟨f.path, extType ext, true, isImplementation f.path, f.path, tc⟩, ""⟩, 1)
      else
        (some ⟨"", "", content, ⟨f.path, extType ext, false, false, f.path, tc⟩, ""⟩, 1)

/-- `readAllDocuments` from `internal/data/database.go`, instrumented
with the number of file reads it performs: the code-extension loops run
first, then the documentation-extension loops, each appending the
documents of the found, non-excluded, readable, small-enough files in
order. -/
def readAllDocumentsR (files : List RepoFile) (tokenCount : String → Nat) :
    List Document × Nat :=
  let results :=
    (codeExtensions.flatMap (fun ext =>
      (findFiles files ext).map (processFile tokenCount true ext))) ++
    (docExtensions.flatMap (fun ext =>
      (findFiles files ext).map (processFile tokenCount false ext)))
  (results.filterMap (fun r => r.1), (results.map (fun r => r.2)).sum)

/-- The document list built by `readAllDocuments`. -/
def readAllDocuments (files : List RepoFile) (tokenCount : String → Nat) :
    List Document :=
  (readAllDocumentsR files tokenCount).1

/-- The state of the `DatabaseManager`: the Milvus rows, the random
stream, and (instrumentation) the number of repository file reads
performed so far. -/
structure DbState where
  store : List StoredEntry
  rng : Rng
  filesRead : Nat

/-- `addDocumentInternal` from `internal/data/database.go`: embed the
document text (a fresh random draw), derive the primary key from the
file path (`generateDocID`, a SHA-256 prefix, abstracted as `hash`), and
insert the row. -/
def addDocumentInternal (sqrtFn : ℚ → ℚ) (hash : String → Int)
    (st : List StoredEntry × Rng) (doc : Document) : List StoredEntry × Rng :=
  let emb := (getEmbedding sqrtFn doc.text st.2).1
  let g1 := (getEmbedding sqrtFn doc.text st.2).2
  (st.1 ++ [⟨hash doc.metaData.filePath, doc.metaData.filePath, emb, doc.text,
    doc.metaData⟩], g1)

/-- `PrepareDatabase` from `internal/data/database.go`: read all
documents of the repository tree and insert each of them (the code
comments record that it re-indexes on every call — there is no check of
any existing corpus). -/
def prepareDatabase (sqrtFn : ℚ → ℚ) (hash : String → Int)
    (tokenCount : String → Nat) (files : List RepoFile) (st : DbState) : DbState :=
  let r := readAllDocumentsR files tokenCount
  let folded := r.1.foldl (addDocumentInternal sqrtFn hash) (st.store, st.rng)
  ⟨folded.1, folded.2, st.filesRead + r.2⟩

/-! ## Provider retrieval paths
(`internal/rag/google_rag.go`, `internal/rag/openai_rag.go`) -/

/-- The retrieval-path errors: `noDocuments` is
`errors.New("没有可用于检索的文档")` — "no documents available for
retrieval". -/
inductive RagError where
  | noDocuments
deriving DecidableEq

/-- `GoogleRAG.RetrieveDocuments`: error out when the provider's
in-memory document list is empty, otherwise search the collection and
re-rank the hits with the conversation context
(`enhanceRetrievalWithMemory`: an empty relevant context leaves the hits
unchanged). -/
def googleRetrieveDocuments (sqrtFn : ℚ → ℚ) (ragDocs : List Document)
    (store : List StoredEntry) (turns : List DialogTurn) (query : String)
    (topK : Nat) (g : Rng) : Except RagError (List Document) × Rng :=
  if ragDocs.length = 0 then (Except.error RagError.noDocuments, g)
  else
    let hits := (searchDocuments sqrtFn store query topK g).1
    let g1 := (searchDocuments sqrtFn store query topK g).2
    let context := getRelevantContext turns query
    if context = "" then (Except.ok hits, g1)
    else (Except.ok (reRankDocumentsWithContext hits context), g1)

/-- `OpenAIRAG.RetrieveDocuments`: no emptiness check at all — the
search result is returned as-is, so an empty collection yields an empty
successful result. -/
def openaiRetrieveDocuments (sqrtFn : ℚ → ℚ) (store : List StoredEntry)
    (query : String) (topK : Nat) (g : Rng) : Except RagError (List Document) × Rng :=
  ((searchDocuments sqrtFn store query topK g).1 |> Except.ok,
   (searchDocuments sqrtFn store query topK g).2)

/-! ## Concrete instances used by counterexamples and witnesses -/

/-- A one-file repository: `a.go` with content `"x"`. -/
def cwFiles : List RepoFile := [⟨"a.go", some "x"⟩]

/-- A concrete token counter assigning every text 5 tokens. -/
def cwTC : String → Nat := fun _ => 5

/-- A concrete random stream producing only zeros. -/
def cwRng : Rng := ⟨fun _ => 0, 0⟩

/-- A concrete square-root function (never forced on these inputs). -/
def cwSqrt : ℚ → ℚ := fun _ => 0

/-- A concrete document-id hash. -/
def cwHash : String → Int := fun _ => 0

/-- The metadata the indexer writes for `a.go` under `cwTC`. -/
def cwMeta : MetaData := ⟨"a.go", "go", true, true, "a.go", 5⟩

/-- The document the indexer builds for `a.go` under `cwTC`. -/
def cwDoc : Document := ⟨"", "", "x", cwMeta, ""⟩

/-- The Milvus row `PrepareDatabase` inserts for `a.go` (the all-zero
stream embeds to the all-zero vector, which has norm `0` and is left
unnormalised). -/
def cwEntry : StoredEntry :=
  ⟨0, "a.go", (List.range embeddingDimension).map (fun _ => 0), "x", cwMeta⟩

/-- The document `SearchDocuments` decodes from `cwEntry`. -/
def cwHit : Document := ⟨"", "", "x", cwMeta, ""⟩

/-- The standard basis vector of the embedding space (used to build the
non-determinism counterexample for retrieval ranking). -/
def unitVec (j : Nat) : List ℚ :=
  (List.range embeddingDimension).map (fun i => if i = j then 1 else 0)

/-- A random stream whose first draw of 768 values is the basis vector
`e 0` and whose second draw is the basis vector `e 1` (both have norm
exactly 1, so normalisation is exact). -/
def cexStream : Nat → ℚ :=
  fun n => if n = 0 then 1 else if n = 769 then 1 else 0

/-- A two-row collection whose embeddings are the two basis vectors the
stream produces. -/
def cexStore : List StoredEntry :=
  [⟨1, "a.go", unitVec 0, "docA", MetaData.zero⟩,
   ⟨2, "b.go", unitVec 1, "docB", MetaData.zero⟩]

/-! ## Helper lemmas -/

/-- Two-element `mergeSort` is the comparison of the two elements. -/
lemma mergeSort_pair {α : Type} (le : α → α → Bool) (a b : α) :
    List.mergeSort [a, b] le = if le a b then [a, b] else [b, a] := by
  rw [List.mergeSort]
  simp [List.splitInTwo, List.merge]

/-- The match counter never exceeds the number of words of `a`. -/
lemma simMatches_le_left (a b : String) :
    simMatches a b ≤ (fields a).length :=
  List.length_filter_le _ _

/-- When the words of `a` are pairwise distinct, the match counter never
exceeds the number of words of `b`: distinct matched words name distinct
members of `fields b`. -/
lemma simMatches_le_right (a b : String) (h : (fields a).Nodup) :
    simMatches a b ≤ (fields b).length := by
  classical
  unfold simMatches
  have hnd : ((fields a).filter
      (fun w => byteLen w > 1 && (fields b).contains w)).Nodup := h.filter _
  have hsub : ∀ w ∈ (fields a).filter
      (fun w => byteLen w > 1 && (fields b).contains w), w ∈ fields b := by
    intro w hw
    have hp := List.of_mem_filter hw
    simp only [List.contains, Bool.and_eq_true, decide_eq_true_eq, List.elem_eq_mem] at hp
    exact hp.2
  calc ((fields a).filter (fun w => byteLen w > 1 && (fields b).contains w)).length
      = ((fields a).filter
          (fun w => byteLen w > 1 && (fields b).contains w)).toFinset.card :=
        (List.toFinset_card_of_nodup hnd).symm
    _ ≤ (fields b).toFinset.card := by
        apply Finset.card_le_card
        intro x hx
        rw [List.mem_toFinset] at hx ⊢
        exact hsub x hx
    _ ≤ (fields b).length := List.toFinset_card_le _

/-- The similarity score is never negative. -/
lemma similarityScore_nonneg (a b : String) : 0 ≤ similarityScore a b := by
  unfold similarityScore
  split
  · exact le_refl 0
  · rename_i h
    push_neg at h
    have hm : (simMatches a b : ℚ) ≤ ((fields a).length : ℚ) := by
      exact_mod_cast simMatches_le_left a b
    have hb : (1 : ℚ) ≤ ((fields b).length : ℚ) := by
      exact_mod_cast Nat.one_le_iff_ne_zero.mpr h.2
    apply div_nonneg (by positivity)
    linarith

/-- With pairwise-distinct words in `a`, the similarity score is at most
one. -/
lemma similarityScore_le_one (a b : String) (h : (fields a).Nodup) :
    similarityScore a b ≤ 1 := by
  unfold similarityScore
  split
  · exact zero_le_one
  · rename_i hne
    push_neg at hne
    have hma : (simMatches a b : ℚ) ≤ ((fields a).length : ℚ) := by
      exact_mod_cast simMatches_le_left a b
    have hmb : (simMatches a b : ℚ) ≤ ((fields b).length : ℚ) := by
      exact_mod_cast simMatches_le_right a b h
    have hb : (1 : ℚ) ≤ ((fields b).length : ℚ) := by
      exact_mod_cast Nat.one_le_iff_ne_zero.mpr hne.2
    rw [div_le_one (by linarith)]
    linarith

/-- Comparing a query with itself scores exactly one whenever it has at
least one word and every word is longer than one byte. -/
lemma similarityScore_self (a : String) (hne : fields a ≠ [])
    (hlen : ∀ w ∈ fields a, 1 < byteLen w) : similarityScore a a = 1 := by
  have hm : simMatches a a = (fields a).length := by
    unfold simMatches
    rw [List.filter_length_eq_length]
    intro w hw
    simp only [List.contains, Bool.and_eq_true, decide_eq_true_eq, List.elem_eq_mem]
    exact ⟨hlen w hw, hw⟩
  have hA : (fields a).length ≠ 0 := by
    simpa [List.length_eq_zero] using hne
  unfold similarityScore
  rw [hm]
  rw [if_neg (by simp [hA])]
  have : ((fields a).length : ℚ) ≠ 0 := by exact_mod_cast hA
  field_simp

/-- Folding `+ f x` over a list starting from `init` adds the sum of the
mapped values. -/
lemma foldl_add_eq_sum {α : Type} (f : α → ℚ) (l : List α) (init : ℚ) :
    l.foldl (fun s x => s + f x) init = init + (l.map f).sum := by
  induction l generalizing init with
  | nil => simp
  | cons x xs ih => simp [ih, add_assoc]

/-- When the filtered provider list has a head, `firstOtherName`
returns the key of a registered provider different from `name`. -/
lemma firstOtherName_mem (providers : List (String × Provider)) (name : String)
    (q : String × Provider)
    (h : (providers.filter (fun q => q.1 ≠ name)).head? = some q) :
    q ∈ providers ∧ q.1 ≠ name ∧ firstOtherName providers name = q.1 := by
  have hq : q ∈ providers.filter (fun q => q.1 ≠ name) := by
    cases hf : providers.filter (fun q => q.1 ≠ name) with
    | nil => rw [hf] at h; simp at h
    | cons a t =>
      rw [hf] at h
      simp only [List.head?_cons, Option.some.injEq] at h
      rw [← h]
      exact List.mem_cons_self a t
  refine ⟨List.mem_of_mem_filter hq, ?_, ?_⟩
  · have := List.of_mem_filter hq
    simpa using this
  · unfold firstOtherName
    rw [h]

/-- When the filtered provider list is empty, `firstOtherName` clears
the active name. -/
lemma firstOtherName_none (providers : List (String × Provider)) (name : String)
    (h : (providers.filter (fun q => q.1 ≠ name)).head? = none) :
    firstOtherName providers name = "" := by
  unfold firstOtherName
  rw [h]

/-- Folding `addDocumentInternal` appends exactly one row per document. -/
lemma foldl_addDocument_length (sqrtFn : ℚ → ℚ) (hash : String → Int)
    (docs : List Document) (s : List StoredEntry × Rng) :
    (docs.foldl (addDocumentInternal sqrtFn hash) s).1.length =
      s.1.length + docs.length := by
  induction docs generalizing s with
  | nil => simp
  | cons d ds ih =>
    show (ds.foldl (addDocumentInternal sqrtFn hash)
      (addDocumentInternal sqrtFn hash s d)).1.length = _
    rw [ih]
    simp [addDocumentInternal]
    omega

/-- Every row produced by folding `addDocumentInternal` is either an
initial row or carries the text and metadata of one of the documents. -/
lemma foldl_addDocument_mem (sqrtFn : ℚ → ℚ) (hash : String → Int)
    (docs : List Document) (s : List StoredEntry × Rng) (e : StoredEntry)
    (he : e ∈ (docs.foldl (addDocumentInternal sqrtFn hash) s).1) :
    e ∈ s.1 ∨ ∃ d ∈ docs, e.metaData = d.metaData ∧ e.rawText = d.text := by
  induction docs generalizing s with
  | nil => left; exact he
  | cons d ds ih =>
    have he' : e ∈ (ds.foldl (addDocumentInternal sqrtFn hash)
        (addDocumentInternal sqrtFn hash s d)).1 := he
    rcases ih _ he' with hs | ⟨d', hd', hmeta⟩
    · simp only [addDocumentInternal, List.mem_append, List.mem_singleton] at hs
      rcases hs with hs | rfl
      · left; exact hs
      · right
        exact ⟨d, List.mem_cons_self d ds, rfl, rfl⟩
    · right
      exact ⟨d', List.mem_cons_of_mem d hd', hmeta⟩

/-- Whenever `processFile` produces a document, that document's recorded
token count is the token count of its text and lies within the 8192
ceiling. -/
lemma processFile_some (tc : String → Nat) (isCode : Bool) (ext : String)
    (f : RepoFile) (d : Document) (h : (processFile tc isCode ext f).1 = some d) :
    d.metaData.tokenCount = tc d.text ∧ tc d.text ≤ 8192 := by
  rcases f with ⟨path, content⟩
  unfold processFile at h
  by_cases hex : isExcluded path
  · simp [hex] at h
  · cases content with
    | none => simp [hex] at h
    | some c =>
      by_cases htc : tc c > 8192
      · simp [hex, htc] at h
      · have hle : tc c ≤ 8192 := Nat.not_lt.mp htc
        cases isCode with
        | true =>
          simp only [hex, htc, Bool.false_eq_true, if_false, if_true,
            Option.some.injEq] at h
          rw [← h]
          exact ⟨rfl, hle⟩
        | false =>
          simp only [hex, htc, Bool.false_eq_true, if_false, if_true,
            Option.some.injEq] at h
          rw [← h]
          exact ⟨rfl, hle⟩

/-- Every search hit carries the raw text and metadata of some row of
the store. -/
lemma searchDocuments_mem (sqrtFn : ℚ → ℚ) (store : List StoredEntry)
    (query : String) (topK : Nat) (g : Rng) (h : Document)
    (hh : h ∈ (searchDocuments sqrtFn store query topK g).1) :
    ∃ e ∈ store, h.text = e.rawText ∧ h.metaData = e.metaData := by
  unfold searchDocuments at hh
  simp only [List.mem_map] at hh
  obtain ⟨e, he, rfl⟩ := hh
  have h1 : e ∈ store.mergeSort
      (fun x y => decide (l2distSq (getEmbedding sqrtFn query g).1 x.embedding ≤
        l2distSq (getEmbedding sqrtFn query g).1 y.embedding)) :=
    List.mem_of_mem_take he
  exact ⟨e, (List.mergeSort_perm store _).mem_iff.mp h1, rfl, rfl⟩

/-- Summing an indicator function over `List.range`. -/
lemma sum_map_range_indicator (n j : Nat) (c : ℚ) (hj : j < n) :
    ((List.range n).map (fun i => if i = j then c else 0)).sum = c := by
  induction n with
  | zero => omega
  | succ n ih =>
    rw [List.range_succ, List.map_append, List.sum_append]
    by_cases h : j = n
    · subst h
      have h0 : ((List.range j).map (fun i => if i = j then c else 0)).sum = 0 := by
        apply List.sum_eq_zero
        intro x hx
        simp only [List.mem_map] at hx
        obtain ⟨i, hi, rfl⟩ := hx
        have : i ≠ j := Nat.ne_of_lt (List.mem_range.mp hi)
        simp [this]
      simp [h0]
    · have hj2 : j < n := by omega
      rw [ih hj2]
      have : n ≠ j := fun hnj => h hnj.symm
      simp [this]

/-- `zipWith` of two maps over the same list is a single map. -/
lemma zipWith_map_map {α β γ : Type} (f : β → β → γ) (g h : α → β) (l : List α) :
    List.zipWith f (l.map g) (l.map h) = l.map (fun x => f (g x) (h x)) := by
  induction l with
  | nil => rfl
  | cons x xs ih => simp [ih]

/-- The squared L2 distance of a vector to itself is zero. -/
lemma l2distSq_self (v : List ℚ) : l2distSq v v = 0 := by
  unfold l2distSq
  induction v with
  | nil => rfl
  | cons x xs ih => simp [ih]

/-- The squared L2 distance between two distinct basis vectors is two. -/
lemma l2distSq_unitVec (j k : Nat) (hj : j < embeddingDimension)
    (hk : k < embeddingDimension) (hne : j ≠ k) :
    l2distSq (unitVec j) (unitVec k) = 2 := by
  unfold l2distSq unitVec
  rw [zipWith_map_map]
  have hfun : ∀ i : Nat,
      ((if i = j then (1 : ℚ) else 0) - (if i = k then 1 else 0)) *
        ((if i = j then (1 : ℚ) else 0) - (if i = k then 1 else 0)) =
      (if i = j then (1 : ℚ) else 0) + (if i = k then 1 else 0) := by
    intro i
    by_cases h1 : i = j
    · have h2 : ¬ i = k := fun hik => hne (h1 ▸ hik ▸ rfl)
      subst h1
      simp [hne, h2]
    · by_cases h2 : i = k
      · subst h2
        simp [h1]
      · simp [h1, h2]
  calc ((List.range embeddingDimension).map (fun i =>
        ((if i = j then (1 : ℚ) else 0) - (if i = k then 1 else 0)) *
          ((if i = j then (1 : ℚ) else 0) - (if i = k then 1 else 0)))).sum
      = ((List.range embeddingDimension).map (fun i =>
          (if i = j then (1 : ℚ) else 0) + (if i = k then 1 else 0))).sum := by
        apply congrArg
        apply List.map_congr_left
        intro i _
        exact hfun i
    _ = ((List.range embeddingDimension).map (fun i =>
          if i = j then (1 : ℚ) else 0)).sum +
        ((List.range embeddingDimension).map (fun i =>
          if i = k then (1 : ℚ) else 0)).sum := by
        induction (List.range embeddingDimension) with
        | nil => simp
        | cons x xs ih => simp [ih]; ring
    _ = 2 := by
        rw [sum_map_range_indicator _ _ _ hj, sum_map_range_indicator _ _ _ hk]
        norm_num

/-- Drawing from a stream that yields the indicator of position `j`
embeds to the basis vector `e j`: the raw vector sums of squares to `1`,
whose square root is `1`, so normalisation divides by `1`. -/
lemma getEmbedding_indicator (sqrtFn : ℚ → ℚ) (hs : sqrtFn 1 = 1)
    (text : String) (s : Nat → ℚ) (pos j : Nat) (hj : j < embeddingDimension)
    (hval : ∀ i < embeddingDimension, s (pos + i) = if i = j then 1 else 0) :
    getEmbedding sqrtFn text ⟨s, pos⟩ = (unitVec j, ⟨s, pos + embeddingDimension⟩) := by
  have hvec : (List.range embeddingDimension).map (fun i => s (pos + i)) = unitVec j := by
    unfold unitVec
    apply List.map_congr_left
    intro i hi
    exact hval i (List.mem_range.mp hi)
  have hsq : ((unitVec j).map (fun v => v * v)).sum = 1 := by
    unfold unitVec
    rw [List.map_map]
    have : ((fun v : ℚ => v * v) ∘ fun i => if i = j then (1 : ℚ) else 0) =
        fun i => if i = j then (1 : ℚ) else 0 := by
      funext i
      by_cases h : i = j <;> simp [h]
    rw [this, sum_map_range_indicator _ _ _ hj]
  simp only [getEmbedding]
  rw [hvec, hsq, hs]
  rw [if_pos one_pos]
  have : (unitVec j).map (fun v => v / 1) = unitVec j := by
    simp
  rw [this]

/-! ## Claim C6 — similarity score bounds -/

/-- C6, counterexample: the turn-relevance score does NOT always lie in
`[0, 1]`.  With `a = "xx xx"` (a repeated word) and `b = "xx"`, both
words of `a` match, so `matches = 2` while `|tokensA| + |tokensB| −
matches = 1`, giving `similarityScore = 2 > 1`. -/
theorem similarityScore_gt_one_cex : 1 < similarityScore "xx xx" "xx" := by
  have h1 : (fields "xx xx").length = 2 := by decide
  have h2 : (fields "xx").length = 1 := by decide
  have h3 : simMatches "xx xx" "xx" = 2 := by decide
  simp only [similarityScore, h1, h2, h3]
  norm_num

/-- C6, amended: the turn-relevance score is always non-negative; it is
at most one whenever the words of `a` are pairwise distinct (the upper
bound fails only when `a` repeats a word, as the counterexample shows);
and `similarityScore a a = 1` for every `a` with a non-empty word list
all of whose words are longer than one byte. -/
theorem similarityScore_bounds (a b : String) :
    0 ≤ similarityScore a b ∧
    ((fields a).Nodup → similarityScore a b ≤ 1) ∧
    (fields a ≠ [] → (∀ w ∈ fields a, 1 < byteLen w) → similarityScore a a = 1) :=
  ⟨similarityScore_nonneg a b,
   fun h => similarityScore_le_one a b h,
   fun hne hlen => similarityScore_self a hne hlen⟩

/-- C6, witness: the amended bounds evaluated at `a = "ab cd"`,
`b = "zz"`. -/
theorem similarityScore_bounds_witness :
    0 ≤ similarityScore "ab cd" "zz" ∧ similarityScore "ab cd" "zz" ≤ 1 ∧
    similarityScore "ab cd" "ab cd" = 1 :=
  ⟨(similarityScore_bounds "ab cd" "zz").1,
   (similarityScore_bounds "ab cd" "zz").2.1 (by decide),
   (similarityScore_bounds "ab cd" "zz").2.2 (by decide) (by decide)⟩

/-! ## Claim C7 — context re-ranking score -/

/-- C7, counterexample: the code's context score differs from the
specification's formula.  For a document of importance `"medium"` whose
text contains the single keyword `"kw"`, the specification prescribes
`1.0 × 1.2 = 1.2`, but `calculateContextScore` has no branch for
`"medium"` and returns `1.0`. -/
theorem calculateContextScore_ne_spec_cex :
    calculateContextScore ⟨"", "", "kw", MetaData.zero, "medium"⟩ ["kw"] ≠
    specContextScore ⟨"", "", "kw", MetaData.zero, "medium"⟩ ["kw"] := by
  have h : goContains (toLowerStr "kw") (toLowerStr "kw") = true := by decide
  have h2 : goContains (toLowerStr "") (toLowerStr "kw") = false := by decide
  have hcode : calculateContextScore ⟨"", "", "kw", MetaData.zero, "medium"⟩ ["kw"] = 1 := by
    simp only [calculateContextScore, List.foldl, h, h2]
    norm_num [show ¬ "medium" = "high" by decide]
  have hspec : specContextScore ⟨"", "", "kw", MetaData.zero, "medium"⟩ ["kw"] = 6/5 := by
    simp only [specContextScore, List.map, List.sum_cons, List.sum_nil, h, h2]
    norm_num [show ¬ "medium" = "high" by decide, show "medium" = "medium" by rfl]
  rw [hcode, hspec]
  norm_num

/-- C7, amended: for every candidate and every keyword list, the context
score is `1.0` per keyword contained (case-insensitively) in the text
plus `2.0` per keyword contained in the title, the sum multiplied by
`1.5` when the importance is `"high"` and by `1.0` otherwise — in
particular a `"medium"` document receives no `1.2` factor. -/
theorem calculateContextScore_closed (doc : Document) (ks : List String) :
    calculateContextScore doc ks =
      (if doc.importance = "high" then (1.5 : ℚ) else 1) *
      ((ks.map (fun k =>
        (if goContains (toLowerStr doc.text) (toLowerStr k) then (1 : ℚ) else 0) +
        (if goContains (toLowerStr doc.title) (toLowerStr k) then (2 : ℚ) else 0))).sum) := by
  have hstep :
      (fun (score : ℚ) (keyword : String) =>
        if goContains (toLowerStr doc.title) (toLowerStr keyword) then
          (if goContains (toLowerStr doc.text) (toLowerStr keyword) then score + 1
           else score) + 2
        else
          (if goContains (toLowerStr doc.text) (toLowerStr keyword) then score + 1
           else score)) =
      (fun (score : ℚ) (keyword : String) => score +
        ((if goContains (toLowerStr doc.text) (toLowerStr keyword) then (1 : ℚ) else 0) +
         (if goContains (toLowerStr doc.title) (toLowerStr keyword) then (2 : ℚ) else 0))) := by
    funext s k
    by_cases h1 : goContains (toLowerStr doc.text) (toLowerStr k) <;>
      by_cases h2 : goContains (toLowerStr doc.title) (toLowerStr k) <;>
      simp [h1, h2] <;> ring
  simp only [calculateContextScore, hstep, foldl_add_eq_sum, zero_add]
  split <;> ring

/-! ## Claim C8 — re-ranking is a sorted permutation -/

/-- C8: for every candidate list and every non-empty conversation
context, `reRankDocumentsWithContext` returns a permutation of its input
— no candidate dropped, duplicated or modified — ordered by
non-increasing context score. -/
theorem reRank_perm_and_sorted (docs : List Document) (context : String)
    (hc : context ≠ "") :
    (reRankDocumentsWithContext docs context).Perm docs ∧
    List.Pairwise (fun d1 d2 =>
        calculateContextScore d2 (extractKeywords context) ≤
        calculateContextScore d1 (extractKeywords context))
      (reRankDocumentsWithContext docs context) := by
  clear hc
  unfold reRankDocumentsWithContext
  set ks := extractKeywords context with hks
  set scoredDocs := docs.map (fun doc => (doc, calculateContextScore doc ks))
    with hscored
  set le := fun (x y : Document × ℚ) => decide (y.2 ≤ x.2) with hle
  have hperm : (scoredDocs.mergeSort le).Perm scoredDocs :=
    List.mergeSort_perm scoredDocs le
  have hfst : scoredDocs.map (fun sd => sd.1) = docs := by
    rw [hscored, List.map_map]
    exact List.map_id _
  constructor
  · exact (hperm.map (fun sd => sd.1)).trans (by rw [hfst])
  · have hval : ∀ x ∈ scoredDocs.mergeSort le,
        x.2 = calculateContextScore x.1 ks := by
      intro x hx
      have hx2 : x ∈ scoredDocs := hperm.mem_iff.mp hx
      rw [hscored, List.mem_map] at hx2
      obtain ⟨d, _, rfl⟩ := hx2
      rfl
    have hpw : (scoredDocs.mergeSort le).Pairwise (fun x y => y.2 ≤ x.2) := by
      have hs := @List.sorted_mergeSort _ le
        (fun a b c hab hbc => by
          rw [hle] at hab hbc ⊢
          simp only [decide_eq_true_eq] at hab hbc ⊢
          exact le_trans hbc hab)
        (fun a b => by rw [hle]; simp [le_total])
        scoredDocs
      exact hs.imp (fun h => by
        rw [hle] at h
        simpa using h)
    rw [List.pairwise_map]
    exact hpw.imp_of_mem (fun {x y} hx hy h => by
      rw [hval x hx, hval y hy] at h
      exact h)

/-- C8, witness: the sorted-permutation property evaluated on a
one-candidate list with the non-empty context `"x"`. -/
theorem reRank_perm_and_sorted_witness :
    (reRankDocumentsWithContext [Document.zero] "x").Perm [Document.zero] ∧
    List.Pairwise (fun d1 d2 =>
        calculateContextScore d2 (extractKeywords "x") ≤
        calculateContextScore d1 (extractKeywords "x"))
      (reRankDocumentsWithContext [Document.zero] "x") :=
  reRank_perm_and_sorted [Document.zero] "x" (by decide)

/-! ## Claim C4 — registry invariant -/

/-- C4: in every registry state reachable by any sequence of `Register`,
`SetActive`, `GetActive` and `Unregister` calls, the active designation
is a single name (the state carries one `active` field, so at most one
provider is active by construction), and whenever it is set it names a
provider currently stored in the registry.  `GetActive` never changes
the state, so `Reachable` needs no step for it. -/
theorem registry_active_invariant (r : Registry) (h : Reachable r) :
    r.active = "" ∨ r.hasName r.active = true := by
  induction h with
  | empty => left; rfl
  | register p hr ih =>
    rename_i r0
    unfold Register
    split
    · exact ih
    · split
      · exact ih
      · by_cases ha : r0.active = ""
        · right
          simp [Registry.hasName, ha]
        · rcases ih with h0 | h0
          · exact absurd h0 ha
          · right
            simp only [Registry.hasName, List.any_append, ha, if_neg ha]
            simp only [Registry.hasName] at h0
            simp [h0]
  | setActive name hr ih =>
    rename_i r0
    unfold SetActive
    split
    · rename_i hn
      right
      exact hn
    · exact ih
  | unregister name hr ih =>
    rename_i r0
    unfold Unregister
    cases hlk : r0.lookup name with
    | none => simpa [hlk] using ih
    | some p =>
      simp only [hlk]
      have hactive : ∀ pr : List (String × Provider), pr = r0.providers ∨
          pr = r0.providers.filter (fun q => q.1 ≠ name) →
          (∀ q ∈ r0.providers.filter (fun q => q.1 ≠ name), q ∈ pr) →
          ((if r0.active = name then firstOtherName r0.providers name
            else r0.active) = "" ∨
           (Registry.mk pr (if r0.active = name then firstOtherName r0.providers name
            else r0.active)).hasName
             (if r0.active = name then firstOtherName r0.providers name
              else r0.active) = true) := by
        intro pr hpr hsub
        by_cases han : r0.active = name
        · rw [if_pos han]
          cases hh : (r0.providers.filter (fun q => q.1 ≠ name)).head? with
          | none => left; exact firstOtherName_none _ _ hh
          | some q =>
            obtain ⟨hqmem, hqname, hfq⟩ := firstOtherName_mem _ _ _ hh
            right
            rw [hfq]
            have hqpr : q ∈ pr := by
              apply hsub
              cases hf : r0.providers.filter (fun q => q.1 ≠ name) with
              | nil => rw [hf] at hh; simp at hh
              | cons a t =>
                rw [hf] at hh
                simp only [List.head?_cons, Option.some.injEq] at hh
                rw [← hh]
                exact List.mem_cons_self a t
            simp only [Registry.hasName, List.any_eq_true]
            exact ⟨q, hqpr, by simp⟩
        · rw [if_neg han]
          rcases ih with h0 | h0
          · left; exact h0
          · right
            simp only [Registry.hasName, List.any_eq_true] at h0 ⊢
            obtain ⟨q, hqmem, hqeq⟩ := h0
            have hqname : q.1 = r0.active := by simpa using hqeq
            refine ⟨q, ?_, hqeq⟩
            rcases hpr with rfl | rfl
            · exact hqmem
            · apply List.mem_filter.mpr
              refine ⟨hqmem, ?_⟩
              simp [hqname, han]
      split
      · exact hactive r0.providers (Or.inl rfl)
          (fun q hq => List.mem_of_mem_filter hq)
      · exact hactive (r0.providers.filter (fun q => q.1 ≠ name)) (Or.inr rfl)
          (fun q hq => hq)

/-- C4, witness: the invariant at the concrete reachable state obtained
by registering one provider into the empty registry. -/
theorem registry_active_invariant_witness :
    (Register Registry.empty ⟨"google", true, true⟩).1.active = "" ∨
    (Register Registry.empty ⟨"google", true, true⟩).1.hasName
      (Register Registry.empty ⟨"google", true, true⟩).1.active = true :=
  registry_active_invariant _ (Reachable.register _ Reachable.empty)

/-! ## Claim C5 — duplicate registration -/

/-- C5: registering a second provider with the name of an
already-stored one fails with "already registered" while the first
registration remains stored and active; and more generally every
erroring `Register` call (duplicate name or `Initialize` failure)
leaves the registry state unchanged. -/
theorem register_twice (p q : Provider) (hpq : q.name = p.name)
    (hinit : p.initOk = true) :
    (∀ (s : Registry) (pr : Provider) (e : RegError),
      (Register s pr).2 = some e → (Register s pr).1 = s) ∧
    (Register Registry.empty p).2 = none ∧
    (Register Registry.empty p).1.active = p.name ∧
    (Register Registry.empty p).1.lookup p.name = some p ∧
    (Register (Register Registry.empty p).1 q).2 =
      some (RegError.alreadyRegistered p.name) ∧
    (Register (Register Registry.empty p).1 q).1 = (Register Registry.empty p).1 := by
  have hgen : ∀ (s : Registry) (pr : Provider) (e : RegError),
      (Register s pr).2 = some e → (Register s pr).1 = s := by
    intro s pr e he
    unfold Register at he ⊢
    split at he
    · rw [if_pos (by assumption)]
    · split at he
      · rw [if_neg (by assumption), if_pos (by assumption)]
      · simp at he
  have h1 : Register Registry.empty p =
      (⟨[(p.name, p)], p.name⟩, none) := by
    unfold Register
    rw [if_neg (by simp [Registry.hasName, Registry.empty]),
      if_neg (by simp [hinit])]
    rfl
  refine ⟨hgen, by rw [h1], by rw [h1], ?_, ?_, ?_⟩
  · rw [h1]
    simp [Registry.lookup]
  · rw [h1]
    unfold Register
    rw [if_pos (by simp [Registry.hasName, hpq])]
    rw [hpq]
  · rw [h1]
    unfold Register
    rw [if_pos (by simp [Registry.hasName, hpq])]

/-- C5, witness: the duplicate-registration scenario with two concrete
providers named `"google"`, plus one concrete erroring `Register` call
(a provider whose `Initialize` fails) leaving the empty registry
unchanged. -/
theorem register_twice_witness :
    (Register Registry.empty ⟨"google", true, true⟩).2 = none ∧
    (Register Registry.empty ⟨"google", true, true⟩).1.active = "google" ∧
    (Register (Register Registry.empty ⟨"google", true, true⟩).1
      ⟨"google", false, true⟩).2 = some (RegError.alreadyRegistered "google") ∧
    (Register (Register Registry.empty ⟨"google", true, true⟩).1
      ⟨"google", false, true⟩).1 =
      (Register Registry.empty ⟨"google", true, true⟩).1 ∧
    (Register Registry.empty ⟨"bad", false, true⟩).1 = Registry.empty :=
  ⟨(register_twice ⟨"google", true, true⟩ ⟨"google", false, true⟩ rfl rfl).2.1,
   (register_twice ⟨"google", true, true⟩ ⟨"google", false, true⟩ rfl rfl).2.2.1,
   (register_twice ⟨"google", true, true⟩ ⟨"google", false, true⟩ rfl rfl).2.2.2.2.1,
   (register_twice ⟨"google", true, true⟩ ⟨"google", false, true⟩ rfl rfl).2.2.2.2.2,
   (register_twice ⟨"google", true, true⟩ ⟨"google", false, true⟩ rfl rfl).1
     Registry.empty ⟨"bad", false, true⟩ (RegError.initializeFailed "bad")
     (by decide)⟩

/-! ## Claim C10 — non-atomic Unregister on Close failure -/

/-- C10: when `Unregister` is called on a registered provider whose
`Close()` fails, the call returns the close error and the provider stays
stored, but when that provider was the active one the active designation
has already been moved: to the first other registered provider when one
exists (so `active` no longer names the failed provider and still names
a stored provider), or cleared when it was the only one — `Unregister`
is not atomic on `Close` failure. -/
theorem unregister_close_failure (r : Registry) (name : String) (p : Provider)
    (hlk : r.lookup name = some p) (hclose : p.closeOk = false) :
    (Unregister r name).2 = some (RegError.closeFailed name) ∧
    (Unregister r name).1.providers = r.providers ∧
    (r.active ≠ name → (Unregister r name).1.active = r.active) ∧
    (r.active = name →
      ((∃ q ∈ r.providers, q.1 ≠ name) →
        (Unregister r name).1.active ≠ name ∧
        (Unregister r name).1.hasName (Unregister r name).1.active = true) ∧
      ((∀ q ∈ r.providers, q.1 = name) → (Unregister r name).1.active = "")) := by
  have hstate : Unregister r name =
      (⟨r.providers, if r.active = name then firstOtherName r.providers name
        else r.active⟩, some (RegError.closeFailed name)) := by
    unfold Unregister
    rw [hlk]
    simp [hclose]
  refine ⟨by rw [hstate], by rw [hstate], ?_, ?_⟩
  · intro hne
    rw [hstate]
    simp [if_neg hne]
  · intro heq
    constructor
    · intro ⟨q0, hq0, hq0ne⟩
      have hne : r.providers.filter (fun q => q.1 ≠ name) ≠ [] := by
        intro hnil
        have hmem : q0 ∈ r.providers.filter (fun q => q.1 ≠ name) :=
          List.mem_filter.mpr ⟨hq0, by simp [hq0ne]⟩
        rw [hnil] at hmem
        simp at hmem
      obtain ⟨q, hq⟩ := Option.ne_none_iff_exists'.mp
        (fun hnone => hne (List.head?_eq_none_iff.mp hnone))
      obtain ⟨hqmem, hqname, hfq⟩ := firstOtherName_mem _ _ _ hq
      rw [hstate]
      simp only [if_pos heq, hfq]
      refine ⟨hqname, ?_⟩
      simp only [Registry.hasName, List.any_eq_true]
      exact ⟨q, hqmem, by simp⟩
    · intro hall
      have hnil : r.providers.filter (fun q => q.1 ≠ name) = [] := by
        rw [List.filter_eq_nil_iff]
        intro q hq
        simp [hall q hq]
      rw [hstate]
      simp only [if_pos heq]
      exact firstOtherName_none _ _ (by rw [hnil]; rfl)

/-- C10, witness: a two-provider registry whose active provider `"a"`
fails to close — `Unregister "a"` errors, keeps both providers stored,
and has already moved `active` to `"b"`. -/
theorem unregister_close_failure_witness :
    (Unregister ⟨[("a", ⟨"a", true, false⟩), ("b", ⟨"b", true, true⟩)], "a"⟩
      "a").2 = some (RegError.closeFailed "a") ∧
    (Unregister ⟨[("a", ⟨"a", true, false⟩), ("b", ⟨"b", true, true⟩)], "a"⟩
      "a").1.providers = [("a", ⟨"a", true, false⟩), ("b", ⟨"b", true, true⟩)] ∧
    (Unregister ⟨[("a", ⟨"a", true, false⟩), ("b", ⟨"b", true, true⟩)], "a"⟩
      "a").1.active ≠ "a" ∧
    (Unregister ⟨[("a", ⟨"a", true, false⟩), ("b", ⟨"b", true, true⟩)], "a"⟩
      "a").1.hasName
      (Unregister ⟨[("a", ⟨"a", true, false⟩), ("b", ⟨"b", true, true⟩)], "a"⟩
        "a").1.active = true :=
  ⟨(unregister_close_failure _ "a" ⟨"a", true, false⟩ (by decide) rfl).1,
   (unregister_close_failure _ "a" ⟨"a", true, false⟩ (by decide) rfl).2.1,
   ((unregister_close_failure _ "a" ⟨"a", true, false⟩ (by decide) rfl).2.2.2
     rfl).1 ⟨("b", ⟨"b", true, true⟩), by decide, by decide⟩ |>.1,
   ((unregister_close_failure _ "a" ⟨"a", true, false⟩ (by decide) rfl).2.2.2
     rfl).1 ⟨("b", ⟨"b", true, true⟩), by decide, by decide⟩ |>.2⟩

/-! ## Claim C2 — empty corpus behaviour of RetrieveDocuments -/

/-- C2, counterexample: `OpenAIRAG.RetrieveDocuments` does NOT fail on
an empty corpus — with zero stored documents it returns the empty list
as a successful result. -/
theorem openaiRetrieve_empty_ok_cex :
    (openaiRetrieveDocuments cwSqrt [] "x" 5 cwRng).1 = Except.ok [] := by
  simp [openaiRetrieveDocuments, searchDocuments]

/-- C2, amended: on a corpus with zero documents,
`GoogleRAG.RetrieveDocuments` fails with the "no documents available for
retrieval" error (it checks its in-memory document list first), while
`OpenAIRAG.RetrieveDocuments` performs no emptiness check and returns an
empty successful result. -/
theorem retrieveDocuments_empty_corpus (sqrtFn : ℚ → ℚ)
    (store : List StoredEntry) (turns : List DialogTurn) (query : String)
    (topK : Nat) (g : Rng) :
    googleRetrieveDocuments sqrtFn [] store turns query topK g =
      (Except.error RagError.noDocuments, g) ∧
    (openaiRetrieveDocuments sqrtFn [] query topK g).1 = Except.ok [] := by
  constructor
  · unfold googleRetrieveDocuments
    simp
  · simp [openaiRetrieveDocuments, searchDocuments]

/-! ## Claim C3 — PrepareDatabase never skips indexing -/

/-- C3, counterexample: preparing the retriever again for a repository
whose durable store already holds a (non-empty) corpus does NOT skip
indexing: with one cached row and a one-file repository, the call reads
the file again (`filesRead` rises from 0 to 1) and inserts a second row
instead of returning the cached corpus unchanged. -/
theorem prepareDatabase_reindexes_cex :
    (prepareDatabase cwSqrt cwHash cwTC cwFiles
      ⟨[⟨0, "p", [], "t", MetaData.zero⟩], cwRng, 0⟩).filesRead = 1 ∧
    (prepareDatabase cwSqrt cwHash cwTC cwFiles
      ⟨[⟨0, "p", [], "t", MetaData.zero⟩], cwRng, 0⟩).store.length = 2 := by
  constructor
  · decide
  · decide

/-- C3, amended: `PrepareDatabase` always re-indexes — on every call it
reads every eligible repository file again and appends one row per
document read, regardless of what the store already holds (the durable
cache is never consulted; the source comments record this as a known
inefficiency). -/
theorem prepareDatabase_always_indexes (sqrtFn : ℚ → ℚ) (hash : String → Int)
    (tokenCount : String → Nat) (files : List RepoFile) (st : DbState) :
    (prepareDatabase sqrtFn hash tokenCount files st).filesRead =
      st.filesRead + (readAllDocumentsR files tokenCount).2 ∧
    (prepareDatabase sqrtFn hash tokenCount files st).store.length =
      st.store.length + (readAllDocuments files tokenCount).length := by
  constructor
  · rfl
  · show (((readAllDocumentsR files tokenCount).1).foldl
      (addDocumentInternal sqrtFn hash) (st.store, st.rng)).1.length = _
    rw [foldl_addDocument_length]
    rfl

/-! ## Claim C9 — the 8192-token ceiling -/

/-- C9: a file whose computed token count exceeds 8192 contributes no
document to the corpus — every document the indexer produces records a
token count equal to that of its own text and at most 8192; hence every
row the freshly-prepared store holds, and every retrieval hit decoded
from that store, stays within the ceiling, so an oversized file can
never appear in a retrieval result. -/
theorem oversized_files_excluded (files : List RepoFile) (tc : String → Nat)
    (sqrtFn : ℚ → ℚ) (hash : String → Int) (g0 : Rng) (query : String)
    (topK : Nat) (g : Rng) :
    (∀ d ∈ readAllDocuments files tc,
      d.metaData.tokenCount = tc d.text ∧ tc d.text ≤ 8192) ∧
    (∀ e ∈ (prepareDatabase sqrtFn hash tc files ⟨[], g0, 0⟩).store,
      e.metaData.tokenCount ≤ 8192) ∧
    (∀ h ∈ (searchDocuments sqrtFn
        (prepareDatabase sqrtFn hash tc files ⟨[], g0, 0⟩).store query topK g).1,
      h.metaData.tokenCount ≤ 8192) := by
  have hdocs : ∀ d ∈ readAllDocuments files tc,
      d.metaData.tokenCount = tc d.text ∧ tc d.text ≤ 8192 := by
    intro d hd
    unfold readAllDocuments readAllDocumentsR at hd
    simp only [List.mem_filterMap, List.mem_append, List.mem_flatMap,
      List.mem_map] at hd
    obtain ⟨r, hr, hrd⟩ := hd
    rcases hr with ⟨ext, _, f, _, rfl⟩ | ⟨ext, _, f, _, rfl⟩
    · exact processFile_some tc true ext f d hrd
    · exact processFile_some tc false ext f d hrd
  have hstore : ∀ e ∈ (prepareDatabase sqrtFn hash tc files ⟨[], g0, 0⟩).store,
      e.metaData.tokenCount ≤ 8192 := by
    intro e he
    have he' : e ∈ ((readAllDocumentsR files tc).1.foldl
        (addDocumentInternal sqrtFn hash) ([], g0)).1 := he
    rcases foldl_addDocument_mem sqrtFn hash _ _ e he' with h0 | ⟨d, hd, hmeta, _⟩
    · simp at h0
    · rw [hmeta]
      obtain ⟨heq, hle⟩ := hdocs d hd
      rw [heq]
      exact hle
  refine ⟨hdocs, hstore, ?_⟩
  intro h hh
  obtain ⟨e, he, _, hmeta⟩ := searchDocuments_mem sqrtFn _ query topK g h hh
  rw [hmeta]
  exact hstore e he

set_option maxRecDepth 8000 in
/-- C9, witness: the ceiling property evaluated on the one-file
repository `cwFiles` with the 5-token counter — for the produced
document, the inserted row, and the retrieval hit. -/
theorem oversized_files_excluded_witness :
    (cwDoc.metaData.tokenCount = cwTC cwDoc.text ∧ cwTC cwDoc.text ≤ 8192) ∧
    cwEntry.metaData.tokenCount ≤ 8192 ∧
    cwHit.metaData.tokenCount ≤ 8192 :=
  ⟨(oversized_files_excluded cwFiles cwTC cwSqrt cwHash cwRng "q" 1 cwRng).1
     cwDoc (by decide),
   (oversized_files_excluded cwFiles cwTC cwSqrt cwHash cwRng "q" 1 cwRng).2.1
     cwEntry (by decide),
   (oversized_files_excluded cwFiles cwTC cwSqrt cwHash cwRng "q" 1 cwRng).2.2
     cwHit (by
      have hst : (prepareDatabase cwSqrt cwHash cwTC cwFiles
          ⟨[], cwRng, 0⟩).store = [cwEntry] := by decide
      rw [hst]
      simp [searchDocuments, cwHit, cwEntry])⟩

/-! ## Claim C1 — ranking is NOT deterministic -/

/-- C1: document retrieval is not a function of corpus, query and memory
state alone.  `getEmbedding` is the documented placeholder that draws a
fresh random vector on every call, so two back-to-back
`SearchDocuments` calls on the identical two-row corpus and identical
query consume successive segments of the random stream and return the
two rows in opposite orders.  `sqrtFn` abstracts `math.Sqrt` and is
assumed only to satisfy `sqrtFn 1 = 1`, which the real square root does;
both query vectors of the exhibited stream have norm exactly 1, so the
modelled arithmetic is exact. -/
theorem search_nondeterministic (sqrtFn : ℚ → ℚ) (hs : sqrtFn 1 = 1) :
    (searchDocuments sqrtFn cexStore "auth" 5 ⟨cexStream, 0⟩).1 ≠
    (searchDocuments sqrtFn cexStore "auth" 5
      (searchDocuments sqrtFn cexStore "auth" 5 ⟨cexStream, 0⟩).2).1 := by
  have hemb1 : getEmbedding sqrtFn "auth" ⟨cexStream, 0⟩ =
      (unitVec 0, ⟨cexStream, 0 + embeddingDimension⟩) := by
    apply getEmbedding_indicator sqrtFn hs "auth" cexStream 0 0
      (by norm_num [embeddingDimension])
    intro i hi
    have h769 : i ≠ 769 := by
      intro h; rw [h] at hi; norm_num [embeddingDimension] at hi
    simp only [cexStream, Nat.zero_add]
    by_cases h0 : i = 0
    · simp [h0]
    · simp [h0, h769]
  have hemb2 : getEmbedding sqrtFn "auth" ⟨cexStream, 0 + embeddingDimension⟩ =
      (unitVec 1, ⟨cexStream, 0 + embeddingDimension + embeddingDimension⟩) := by
    apply getEmbedding_indicator sqrtFn hs "auth" cexStream _ 1
      (by norm_num [embeddingDimension])
    intro i hi
    simp only [cexStream, embeddingDimension, Nat.zero_add]
    by_cases h1 : i = 1
    · simp [h1]
    · have hne0 : 768 + i ≠ 0 := by omega
      have hne769 : 768 + i ≠ 769 := by omega
      simp [hne0, hne769, h1]
  have hd00 : l2distSq (unitVec 0) (unitVec 0) = 0 := l2distSq_self _
  have hd01 : l2distSq (unitVec 0) (unitVec 1) = 2 :=
    l2distSq_unitVec 0 1 (by norm_num [embeddingDimension])
      (by norm_num [embeddingDimension]) (by norm_num)
  have hd10 : l2distSq (unitVec 1) (unitVec 0) = 2 :=
    l2distSq_unitVec 1 0 (by norm_num [embeddingDimension])
      (by norm_num [embeddingDimension]) (by norm_num)
  have hd11 : l2distSq (unitVec 1) (unitVec 1) = 0 := l2distSq_self _
  have hc1 : searchDocuments sqrtFn cexStore "auth" 5 ⟨cexStream, 0⟩ =
      ([⟨"", "", "docA", MetaData.zero, ""⟩, ⟨"", "", "docB", MetaData.zero, ""⟩],
        ⟨cexStream, 0 + embeddingDimension⟩) := by
    simp only [searchDocuments, hemb1, cexStore]
    rw [mergeSort_pair]
    simp only [hd00, hd01]
    norm_num
  have hc2 : searchDocuments sqrtFn cexStore "auth" 5
      ⟨cexStream, 0 + embeddingDimension⟩ =
      ([⟨"", "", "docB", MetaData.zero, ""⟩, ⟨"", "", "docA", MetaData.zero, ""⟩],
        ⟨cexStream, 0 + embeddingDimension + embeddingDimension⟩) := by
    simp only [searchDocuments, hemb2, cexStore]
    rw [mergeSort_pair]
    simp only [hd10, hd11]
    norm_num
  rw [hc1]
  simp only [hc2]
  decide

/-- C1, witness: the non-determinism at the concrete square root
`fun q => q` (which indeed maps 1 to 1). -/
theorem search_nondeterministic_witness :
    (searchDocuments (fun q => q) cexStore "auth" 5 ⟨cexStream, 0⟩).1 ≠
    (searchDocuments (fun q => q) cexStore "auth" 5
      (searchDocuments (fun q => q) cexStore "auth" 5 ⟨cexStream, 0⟩).2).1 :=
  search_nondeterministic (fun q => q) rfl

end DeepWiki
